import Mathlib

/-!
Shallow embedding of `src/price_scraper_converter.py` (book-price scraper and
currency converter) and proofs about its behaviour.

Modelling conventions:
* Prices are exact rationals (`Rat`); Python `float` parsing of the simple
  decimal literals occurring in this pipeline (optional minus sign, digits,
  at most one dot) is modelled by `parseDecimal`, and Python `round(x, 2)`
  (round half to even) by `round2`.
* Network effects are oracles: a `Site` maps a page number to the fetch
  outcome of that page; the exchange-rate API response is an
  `Except Unit (List (String × Rat))` value (`.error` covers network errors
  and malformed responses alike, since the code catches every exception).
* `datetime.now().strftime(...)` is an oracle `now : Nat → String` giving the
  formatted clock value returned by the i-th call made during a run.
* The unbounded `while` loop of `scrape_books` is given explicit fuel; one
  unit of fuel is one iteration of the `while` loop, and running out of fuel
  yields the distinguished outcome `ScrapeResult.diverge`.
* A Python dict record is a `Product` structure whose derived fields are
  `Option`-valued: a key that the dict does not have is `none`.  The dict key
  `price_{target_currency.lower()}` is the structure field `price_target`;
  its textual name only matters in the CSV header, where it is reconstructed.
  (The model keeps the source and target price fields distinct, so it assumes
  the target currency is not itself "gbp".)
* The CSV file is a list of rows, each row a list of cells (strings); the
  quoting layer of the `csv` module is not modelled, reading back is
  row-by-row as in the spec's round-trip property.
* `print`/`time.sleep` side effects of the scraper are recorded in an event
  trace returned next to its result.
-/

/-- Python `str.upper()` (ASCII case mapping, enough for currency codes). -/
def strUpper (s : String) : String :=
  String.mk (s.data.map Char.toUpper)

/-- Python `str.lower()` (ASCII case mapping, enough for currency codes). -/
def strLower (s : String) : String :=
  String.mk (s.data.map Char.toLower)

/-- Big-endian digit-string value: `digitsToNat ['4','2'] = 42`. -/
def digitsToNat (l : List Char) : Nat :=
  l.foldl (fun a c => 10 * a + (c.toNat - 48)) 0

/-- Split a character list at its first dot: `splitAtDot "12.34" = some ("12", "34")`,
`none` when no dot occurs. -/
def splitAtDot : List Char → Option (List Char × List Char)
  | [] => none
  | c :: rest =>
    if c = '.' then some ([], rest)
    else (splitAtDot rest).map (fun p => (c :: p.1, p.2))

/-- Parse an unsigned decimal literal (digits with at most one dot, not all
parts empty), as Python `float` accepts for the price strings of this site. -/
def parseUnsignedChars (l : List Char) : Option Rat :=
  match splitAtDot l with
  | none =>
    if !l.isEmpty && l.all Char.isDigit then some ((digitsToNat l : Nat) : Rat)
    else none
  | some (ip, fp) =>
    if !(ip ++ fp).isEmpty && ip.all Char.isDigit && fp.all Char.isDigit then
      some (((digitsToNat (ip ++ fp) : Nat) : Rat) / 10 ^ fp.length)
    else none

/-- Python `float(s)` on the simple decimal literals of this pipeline:
optional leading minus, then an unsigned decimal literal. -/
def parseDecimal (s : String) : Option Rat :=
  match s.data with
  | [] => none
  | c :: rest =>
    if c = '-' then (parseUnsignedChars rest).map (fun q => -q)
    else parseUnsignedChars (c :: rest)

/-- `price_text.replace("£", "")`: drop every pound-sign character. -/
def stripPound (s : String) : String :=
  String.mk (s.data.filter (fun c => c ≠ '£'))

/-- `float(price_text.replace("£", ""))`, fallibly: the price extraction of
`scrape_books`. `none` models the uncaught `ValueError`. -/
def parsePrice (s : String) : Option Rat :=
  parseDecimal (stripPound s)

/-- Little-endian digits of `n` (empty for `0`), with fuel (`fuel ≥ n` is
always enough). -/
def natDigitsAux : Nat → Nat → List Char
  | 0, _ => []
  | fuel + 1, n =>
    if n = 0 then []
    else Char.ofNat (48 + n % 10) :: natDigitsAux fuel (n / 10)

/-- Big-endian digits of `n`, empty for `0`. -/
def natDigits (n : Nat) : List Char :=
  (natDigitsAux n n).reverse

/-- Decimal rendering of a natural number. -/
def natToString (n : Nat) : String :=
  if n = 0 then "0" else String.mk (natDigits n)

/-- Multiplicity of the prime `p` in `n`, with fuel. -/
def countFactorAux (p : Nat) : Nat → Nat → Nat
  | 0, _ => 0
  | fuel + 1, n =>
    if 2 ≤ p ∧ n ≠ 0 ∧ n % p = 0 then countFactorAux p fuel (n / p) + 1 else 0

/-- Number of decimal places needed for denominator `d`: `d ∣ 10 ^ decExp d`
exactly when `d` has no prime factors besides 2 and 5. -/
def decExp (d : Nat) : Nat :=
  max (countFactorAux 2 d d) (countFactorAux 5 d d)

/-- Left-pad the digits of `f` with zeros to width `k`. -/
def padDigits (k : Nat) (f : Nat) : List Char :=
  List.replicate (k - (natDigits f).length) '0' ++ natDigits f

/-- Decimal rendering of a non-negative rational whose denominator divides a
power of 10 (the shape of every price the pipeline produces). -/
def renderNN (q : Rat) : String :=
  let k := decExp q.den
  let m := q.num.toNat * 10 ^ k / q.den
  if k = 0 then natToString m
  else natToString (m / 10 ^ k) ++ "." ++ String.mk (padDigits k (m % 10 ^ k))

/-- Decimal rendering of a rational: how a price value appears as a CSV cell. -/
def renderRat (q : Rat) : String :=
  if q < 0 then "-" ++ renderNN (-q) else renderNN q

/-- Round half to even to an integer, as Python `round` does on exact values. -/
def rHalfEven (q : Rat) : Int :=
  if q - ⌊q⌋ < 1 / 2 then ⌊q⌋
  else if (1 : Rat) / 2 < q - ⌊q⌋ then ⌊q⌋ + 1
  else if ⌊q⌋ % 2 = 0 then ⌊q⌋ else ⌊q⌋ + 1

/-- Python `round(x, 2)`: round to 2 decimal places, half to even. -/
def round2 (q : Rat) : Rat :=
  ((rHalfEven (q * 100) : Int) : Rat) / 100

/-- One record flowing through the pipeline; a Python dict with keys `name`,
`price_gbp` and, once converted, `price_{currency}` and `timestamp`.  A `none`
field models an absent dict key. -/
structure Product where
  name : String
  price_gbp : Rat
  price_target : Option Rat := none
  timestamp : Option String := none
deriving Repr, DecidableEq

/-- One `.product_pod` entry of a listing page: the title attribute and the
stripped text of its `.price_color` element. -/
structure Entry where
  name : String
  priceText : String
deriving Repr, DecidableEq

/-- Outcome of fetching one listing page: its entries in document order, or a
`requests.exceptions.RequestException` (network error, timeout, or bad status
via `raise_for_status`). -/
inductive FetchResult where
  | ok (entries : List Entry)
  | err
deriving Repr, DecidableEq

/-- The external site: what fetching each page number yields during this run. -/
structure Site where
  pages : Nat → FetchResult

/-- Observable side effects of `scrape_books`: an HTTP GET of a page, the
error print for a page, and the `time.sleep(1)` pause. -/
inductive Ev where
  | fetch (page : Nat)
  | logError (page : Nat)
  | sleep
deriving Repr, DecidableEq

/-- How a `scrape_books` run ends: a normal return carrying the accumulated
products, an uncaught `ValueError` from price parsing (`exn`), or failure to
terminate within the given fuel (`diverge`). -/
inductive ScrapeResult where
  | ok (products : List Product)
  | exn
  | diverge
deriving Repr, DecidableEq

/-- The inner `for book in books` loop: parse each entry, append it, and break
as soon as the accumulator reaches `target`.  `.error ()` is the uncaught
`ValueError` of `float` on a malformed price. -/
def processBooks (target : Nat) (acc : List Product) : List Entry → Except Unit (List Product)
  | [] => Except.ok acc
  | e :: rest =>
    match parsePrice e.priceText with
    | none => Except.error ()
    | some p =>
      let acc2 := acc ++ [{ name := e.name, price_gbp := p }]
      if target ≤ acc2.length then Except.ok acc2
      else processBooks target acc2 rest

/-- The `while len(products) < target_count` loop of `scrape_books`, one unit
of fuel per iteration, returning the result together with the event trace. -/
def scrapeLoopF (site : Site) (target : Nat) : Nat → Nat → List Product → ScrapeResult × List Ev
  | 0, _, _ => (ScrapeResult.diverge, [])
  | fuel + 1, page, acc =>
    if acc.length < target then
      match site.pages page with
      | FetchResult.err => (ScrapeResult.ok acc, [Ev.fetch page, Ev.logError page, Ev.sleep])
      | FetchResult.ok entries =>
        match processBooks target acc entries with
        | Except.error _ => (ScrapeResult.exn, [Ev.fetch page])
        | Except.ok acc2 =>
          let r := scrapeLoopF site target fuel (page + 1) acc2
          (r.1, Ev.fetch page :: r.2)
    else (ScrapeResult.ok acc, [])

/-- `scrape_books(target_count)`: start at page 1 with an empty accumulator. -/
def scrape_books (site : Site) (target : Nat) (fuel : Nat) : ScrapeResult × List Ev :=
  scrapeLoopF site target fuel 1 []

/-- `data['rates'].get(code, None)` on the decoded rate table. -/
def rateLookup (code : String) : List (String × Rat) → Option Rat
  | [] => none
  | (k, v) :: rest => if k = code then some v else rateLookup code rest

/-- `get_exchange_rate(target_currency)`: look up the upper-cased code in the
fetched table; on any failure (network/malformed response, or missing code —
the raised `ValueError` is caught by the same `except Exception`) return the
fallback 180.0.  The boolean records whether the fallback warning was
printed. -/
def get_exchange_rate (api : Except Unit (List (String × Rat))) (target_currency : String) :
    Rat × Bool :=
  match api with
  | Except.error _ => (180, true)
  | Except.ok rates =>
    match rateLookup (strUpper target_currency) rates with
    | some rate => (rate, false)
    | none => (180, true)

/-- The `for product in products` loop of `convert_prices`; `i` counts the
`datetime.now()` calls made so far in this run of the loop. -/
def convertLoop (now : Nat → String) (rate : Rat) : Nat → List Product → List Product
  | _, [] => []
  | i, p :: ps =>
    { p with
      price_target := some (round2 (p.price_gbp * rate))
      timestamp := some (now i) } :: convertLoop now rate (i + 1) ps

/-- `convert_prices(products, rate, target_currency)`: set the converted price
(rounded to 2 decimal places) and a per-record timestamp on every product.
The currency argument only influences the dict key spelling, which the
structure model fixes; it is kept for signature fidelity. -/
def convert_prices (now : Nat → String) (products : List Product) (rate : Rat)
    (target_currency : String) : List Product :=
  convertLoop now rate 0 products

/-- `products[0].keys()` in insertion order: the dict keys a record has. -/
def fieldNames (target_currency : String) (p : Product) : List String :=
  ["name", "price_gbp"]
    ++ (match p.price_target with
        | some _ => ["price_" ++ strLower target_currency]
        | none => [])
    ++ (match p.timestamp with
        | some _ => ["timestamp"]
        | none => [])

/-- The value a record's dict holds under a given key, rendered as CSV text;
`none` when the record has no such key. -/
def cellOf (target_currency : String) (p : Product) (f : String) : Option String :=
  if f = "name" then some p.name
  else if f = "price_gbp" then some (renderRat p.price_gbp)
  else if f = "price_" ++ strLower target_currency then p.price_target.map renderRat
  else if f = "timestamp" then p.timestamp
  else none

/-- One `csv.DictWriter` row: each field name looked up in the record (absent
keys become the rest-value `""`); a record holding a key outside the header's
field names makes `writerows` raise, modelled as `none`. -/
def rowOf (target_currency : String) (fields : List String) (p : Product) :
    Option (List String) :=
  if (fieldNames target_currency p).all (fun k => fields.contains k) then
    some (fields.map (fun f => (cellOf target_currency p f).getD ""))
  else none

/-- `DictWriter.writerows`: write each record's row, raising (`none`) if any
record raises. -/
def rowsOf (target_currency : String) (fields : List String) :
    List Product → Option (List (List String))
  | [] => some []
  | p :: ps =>
    match rowOf target_currency fields p, rowsOf target_currency fields ps with
    | some r, some rs => some (r :: rs)
    | _, _ => none

/-- `save_to_csv(products)`: header from the first record's keys, then one row
per record.  `none` on an empty batch models the `IndexError` of
`products[0]`, and on a record with keys outside the header the `ValueError`
of `DictWriter.writerows`. -/
def save_to_csv (target_currency : String) (products : List Product) :
    Option (List (List String)) :=
  match products with
  | [] => none
  | p0 :: _ =>
    (rowsOf target_currency (fieldNames target_currency p0) products).map
      (fun rows => fieldNames target_currency p0 :: rows)

/-- How a run of `main` ends, as far as the pipeline stages are concerned. -/
inductive MainOutcome where
  | noProducts
  | completed (file : List (List String))
  | saveFailed
  | aborted
  | hung
deriving Repr, DecidableEq

/-- The pipeline portion of `main` after input handling: scrape, return early
on an empty batch ("No products found."), otherwise resolve the rate, convert,
and save.  `saveFailed` would mark `save_to_csv` raising. -/
def mainModel (site : Site) (api : Except Unit (List (String × Rat)))
    (now : Nat → String) (fuel num_products : Nat) (target_currency : String) :
    MainOutcome :=
  match scrape_books site num_products fuel with
  | (ScrapeResult.exn, _) => MainOutcome.aborted
  | (ScrapeResult.diverge, _) => MainOutcome.hung
  | (ScrapeResult.ok products, _) =>
    if products.isEmpty then MainOutcome.noProducts
    else
      match save_to_csv target_currency
          (convert_prices now products (get_exchange_rate api target_currency).1
            target_currency) with
      | none => MainOutcome.saveFailed
      | some file => MainOutcome.completed file

/-- A listing-page entry as the spec's testable properties assume them:
non-empty name and a price text parsing to a non-negative amount. -/
def WellFormedEntry (e : Entry) : Prop :=
  e.name ≠ "" ∧ ∃ q, parsePrice e.priceText = some q ∧ 0 ≤ q

/-- A site on which every page fetch succeeds and yields at least one
well-formed entry (the "unlimited well-formed entries per page" stub). -/
def GoodSite (site : Site) : Prop :=
  ∀ page, ∃ es, site.pages page = FetchResult.ok es ∧ es ≠ [] ∧
    ∀ e ∈ es, WellFormedEntry e

/-! ### Digit strings: values, rendering, parsing -/

/-- Little-endian value of a digit list (proof device for `natDigitsAux`). -/
def valLE : List Char → Nat
  | [] => 0
  | c :: cs => (c.toNat - 48) + 10 * valLE cs

theorem string_data_append (s t : String) : (s ++ t).data = s.data ++ t.data := rfl

theorem foldl_digits_shift (l : List Char) (a : Nat) :
    l.foldl (fun a c => 10 * a + (c.toNat - 48)) a = a * 10 ^ l.length + digitsToNat l := by
  induction l generalizing a with
  | nil => simp [digitsToNat]
  | cons c cs ih =>
    simp only [List.foldl_cons, List.length_cons, digitsToNat] at *
    rw [ih, ih (10 * 0 + (c.toNat - 48))]
    ring

theorem digitsToNat_append (xs ys : List Char) :
    digitsToNat (xs ++ ys) = digitsToNat xs * 10 ^ ys.length + digitsToNat ys := by
  unfold digitsToNat
  rw [List.foldl_append]
  exact foldl_digits_shift ys _

theorem digitsToNat_reverse (l : List Char) : digitsToNat l.reverse = valLE l := by
  induction l with
  | nil => rfl
  | cons c cs ih =>
    rw [List.reverse_cons, digitsToNat_append, ih]
    simp only [valLE, List.length_cons, List.length_nil, pow_one]
    have h1 : digitsToNat [c] = c.toNat - 48 := by
      unfold digitsToNat
      simp
    rw [h1]
    ring

theorem digitChar_toNat (d : Nat) (h : d < 10) : (Char.ofNat (48 + d)).toNat = 48 + d := by
  interval_cases d <;> decide

theorem digitChar_isDigit (d : Nat) (h : d < 10) : (Char.ofNat (48 + d)).isDigit = true := by
  interval_cases d <;> decide

theorem valLE_natDigitsAux : ∀ fuel n, n ≤ fuel → valLE (natDigitsAux fuel n) = n := by
  intro fuel
  induction fuel with
  | zero =>
    intro n h
    interval_cases n
    rfl
  | succ f ih =>
    intro n h
    by_cases h0 : n = 0
    · subst h0; simp [natDigitsAux, valLE]
    · rw [natDigitsAux, if_neg h0]
      simp only [valLE]
      rw [digitChar_toNat _ (Nat.mod_lt n (by omega)), ih (n / 10) (by omega)]
      omega

theorem mem_natDigitsAux : ∀ fuel n c, c ∈ natDigitsAux fuel n → c.isDigit = true := by
  intro fuel
  induction fuel with
  | zero => intro n c hc; simp [natDigitsAux] at hc
  | succ f ih =>
    intro n c hc
    by_cases h0 : n = 0
    · subst h0; simp [natDigitsAux] at hc
    · rw [natDigitsAux, if_neg h0] at hc
      rcases List.mem_cons.mp hc with h | h
      · subst h; exact digitChar_isDigit _ (Nat.mod_lt n (by omega))
      · exact ih _ _ h

theorem natDigitsAux_length : ∀ fuel n k, n < 10 ^ k → (natDigitsAux fuel n).length ≤ k := by
  intro fuel
  induction fuel with
  | zero => intro n k _; simp [natDigitsAux]
  | succ f ih =>
    intro n k h
    by_cases h0 : n = 0
    · subst h0; simp [natDigitsAux]
    · rw [natDigitsAux, if_neg h0]
      cases k with
      | zero => simp at h; omega
      | succ k' =>
        simp only [List.length_cons]
        have hdiv : n / 10 < 10 ^ k' := by
          rw [Nat.div_lt_iff_lt_mul (by omega : (0:Nat) < 10)]
          calc n < 10 ^ (k' + 1) := h
            _ = 10 ^ k' * 10 := by ring
        have := ih (n / 10) k' hdiv
        omega

theorem digitsToNat_natDigits (n : Nat) : digitsToNat (natDigits n) = n := by
  rw [natDigits, digitsToNat_reverse, valLE_natDigitsAux n n le_rfl]

theorem natDigits_isDigit (n : Nat) (c : Char) (h : c ∈ natDigits n) : c.isDigit = true := by
  rw [natDigits, List.mem_reverse] at h
  exact mem_natDigitsAux _ _ _ h

theorem natDigits_length (n k : Nat) (h : n < 10 ^ k) : (natDigits n).length ≤ k := by
  rw [natDigits, List.length_reverse]
  exact natDigitsAux_length _ _ _ h

theorem natDigits_ne_nil (n : Nat) (h : n ≠ 0) : natDigits n ≠ [] := by
  rw [natDigits]
  simp only [ne_eq, List.reverse_eq_nil_iff]
  cases n with
  | zero => exact absurd rfl h
  | succ m =>
    rw [natDigitsAux, if_neg (by omega)]
    simp

theorem natToString_spec (n : Nat) :
    (natToString n).data ≠ [] ∧ (∀ c ∈ (natToString n).data, c.isDigit = true) ∧
      digitsToNat (natToString n).data = n := by
  by_cases h0 : n = 0
  · subst h0
    refine ⟨by decide, ?_, by decide⟩
    intro c hc
    have : c = '0' := by simpa [natToString] using hc
    subst this; decide
  · rw [natToString, if_neg h0]
    exact ⟨natDigits_ne_nil n h0, fun c hc => natDigits_isDigit n c hc,
      digitsToNat_natDigits n⟩

theorem natToString_head (n : Nat) :
    ∃ c rest, (natToString n).data = c :: rest ∧ c.isDigit = true := by
  obtain ⟨hne, hdig, _⟩ := natToString_spec n
  cases h : (natToString n).data with
  | nil => exact absurd h hne
  | cons c rest =>
    exact ⟨c, rest, rfl, hdig c (h ▸ List.mem_cons_self c rest)⟩

theorem isDigit_ne_dot (c : Char) (h : c.isDigit = true) : c ≠ '.' := by
  intro he
  subst he
  exact absurd h (by decide)

theorem isDigit_ne_dash (c : Char) (h : c.isDigit = true) : ¬(c = '-') := by
  intro he
  subst he
  exact absurd h (by decide)

theorem splitAtDot_no_dot (l : List Char) (h : ∀ c ∈ l, c ≠ '.') : splitAtDot l = none := by
  induction l with
  | nil => rfl
  | cons c cs ih =>
    rw [splitAtDot, if_neg (h c (List.mem_cons_self c cs)),
      ih (fun x hx => h x (List.mem_cons_of_mem c hx))]
    rfl

theorem splitAtDot_dot (xs ys : List Char) (h : ∀ c ∈ xs, c ≠ '.') :
    splitAtDot (xs ++ '.' :: ys) = some (xs, ys) := by
  induction xs with
  | nil => simp [splitAtDot]
  | cons c cs ih =>
    rw [List.cons_append, splitAtDot, if_neg (h c (List.mem_cons_self c cs)),
      ih (fun x hx => h x (List.mem_cons_of_mem c hx))]
    rfl

theorem parseUnsigned_digits (l : List Char) (hne : l ≠ [])
    (hd : ∀ c ∈ l, c.isDigit = true) :
    parseUnsignedChars l = some ((digitsToNat l : Nat) : Rat) := by
  have hsplit : splitAtDot l = none :=
    splitAtDot_no_dot l (fun c hc => isDigit_ne_dot c (hd c hc))
  have h1 : l.isEmpty = false := by
    cases l with
    | nil => exact absurd rfl hne
    | cons a as => rfl
  have h2 : l.all Char.isDigit = true := List.all_eq_true.mpr hd
  simp [parseUnsignedChars, hsplit, h1, h2]

theorem parseUnsigned_with_dot (ip fp : List Char) (hne : ip ≠ [])
    (hip : ∀ c ∈ ip, c.isDigit = true) (hfp : ∀ c ∈ fp, c.isDigit = true) :
    parseUnsignedChars (ip ++ '.' :: fp) =
      some (((digitsToNat (ip ++ fp) : Nat) : Rat) / 10 ^ fp.length) := by
  have hsplit := splitAtDot_dot ip fp (fun c hc => isDigit_ne_dot c (hip c hc))
  have h1 : (ip ++ fp).isEmpty = false := by
    cases ip with
    | nil => exact absurd rfl hne
    | cons a as => rfl
  simp [parseUnsignedChars, hsplit, h1, List.all_eq_true.mpr hip, List.all_eq_true.mpr hfp]

theorem parseDecimal_head_digit (s : String) (c : Char) (rest : List Char)
    (h : s.data = c :: rest) (hc : c.isDigit = true) :
    parseDecimal s = parseUnsignedChars (c :: rest) := by
  simp only [parseDecimal, h]
  rw [if_neg (isDigit_ne_dash c hc)]

theorem digitsToNat_zero_cons (l : List Char) : digitsToNat ('0' :: l) = digitsToNat l := by
  unfold digitsToNat
  rw [List.foldl_cons]
  congr 1

theorem digitsToNat_replicate_zero (j : Nat) : digitsToNat (List.replicate j '0') = 0 := by
  induction j with
  | zero => rfl
  | succ j ih => rw [List.replicate_succ, digitsToNat_zero_cons, ih]

theorem digitsToNat_pad (k f : Nat) (h : f < 10 ^ k) :
    digitsToNat (padDigits k f) = f ∧ (padDigits k f).length = k ∧
      ∀ c ∈ padDigits k f, c.isDigit = true := by
  unfold padDigits
  refine ⟨?_, ?_, ?_⟩
  · rw [digitsToNat_append, digitsToNat_replicate_zero, digitsToNat_natDigits]
    ring
  · rw [List.length_append, List.length_replicate]
    have := natDigits_length f k h
    omega
  · intro c hc
    rcases List.mem_append.mp hc with h' | h'
    · have : c = '0' := List.eq_of_mem_replicate h'
      subst this; decide
    · exact natDigits_isDigit f c h'

theorem renderNN_data (q : Rat) (hk0 : decExp q.den ≠ 0) :
    (renderNN q).data =
      (natToString (q.num.toNat * 10 ^ decExp q.den / q.den / 10 ^ decExp q.den)).data ++
        '.' :: padDigits (decExp q.den)
          (q.num.toNat * 10 ^ decExp q.den / q.den % 10 ^ decExp q.den) := by
  simp only [renderNN, if_neg hk0, string_data_append, List.append_assoc]
  rfl

theorem renderNN_head (q : Rat) :
    ∃ c rest, (renderNN q).data = c :: rest ∧ c.isDigit = true := by
  by_cases hk0 : decExp q.den = 0
  · have hr : renderNN q = natToString (q.num.toNat * 10 ^ decExp q.den / q.den) := by
      simp only [renderNN, if_pos hk0]
    rw [hr]
    exact natToString_head _
  · obtain ⟨c, rest, h1, h2⟩ :=
      natToString_head (q.num.toNat * 10 ^ decExp q.den / q.den / 10 ^ decExp q.den)
    refine ⟨c, rest ++ '.' :: padDigits (decExp q.den)
      (q.num.toNat * 10 ^ decExp q.den / q.den % 10 ^ decExp q.den), ?_, h2⟩
    rw [renderNN_data q hk0, h1]
    rfl

theorem parseUnsigned_renderNN (q : Rat) (h0 : 0 ≤ q) (hd : q.den ∣ 10 ^ decExp q.den) :
    parseUnsignedChars (renderNN q).data = some q := by
  have hden0 : (q.den : Rat) ≠ 0 := Nat.cast_ne_zero.mpr q.den_pos.ne'
  have hmul : q.num.toNat * 10 ^ decExp q.den / q.den * q.den =
      q.num.toNat * 10 ^ decExp q.den :=
    Nat.div_mul_cancel (hd.mul_left _)
  have hnn : (0 : Int) ≤ q.num := Rat.num_nonneg.mpr h0
  have hmulQ : ((q.num.toNat * 10 ^ decExp q.den / q.den : Nat) : Rat) * (q.den : Rat) =
      (q.num : Rat) * 10 ^ decExp q.den := by
    have htoNat : ((q.num.toNat : Nat) : Rat) = (q.num : Rat) := by
      exact_mod_cast Int.toNat_of_nonneg hnn
    have h := congrArg (fun x : Nat => (x : Rat)) hmul
    push_cast at h
    rw [htoNat] at h
    exact h
  have key : ((q.num.toNat * 10 ^ decExp q.den / q.den : Nat) : Rat) / 10 ^ decExp q.den
      = q := by
    conv_rhs => rw [← Rat.num_div_den q]
    rw [div_eq_div_iff (by positivity) hden0]
    exact hmulQ
  by_cases hk0 : decExp q.den = 0
  · have hr : renderNN q = natToString (q.num.toNat * 10 ^ decExp q.den / q.den) := by
      simp only [renderNN, if_pos hk0]
    obtain ⟨hne, hdig, hval⟩ := natToString_spec (q.num.toNat * 10 ^ decExp q.den / q.den)
    rw [hr, parseUnsigned_digits _ hne hdig, hval]
    rw [hk0] at key ⊢
    norm_num at key ⊢
    exact key
  · have hlt : q.num.toNat * 10 ^ decExp q.den / q.den % 10 ^ decExp q.den
        < 10 ^ decExp q.den := Nat.mod_lt _ (by positivity)
    obtain ⟨hpadval, hpadlen, hpaddig⟩ := digitsToNat_pad _ _ hlt
    obtain ⟨hne, hdig, hval⟩ :=
      natToString_spec (q.num.toNat * 10 ^ decExp q.den / q.den / 10 ^ decExp q.den)
    rw [renderNN_data q hk0, parseUnsigned_with_dot _ _ hne hdig hpaddig,
      digitsToNat_append, hval, hpadval, hpadlen]
    have hdm : q.num.toNat * 10 ^ decExp q.den / q.den / 10 ^ decExp q.den
          * 10 ^ decExp q.den +
        q.num.toNat * 10 ^ decExp q.den / q.den % 10 ^ decExp q.den =
        q.num.toNat * 10 ^ decExp q.den / q.den :=
      Nat.div_add_mod' _ _
    rw [hdm, key]

theorem parseDecimal_renderRat (q : Rat) (hd : q.den ∣ 10 ^ decExp q.den) :
    parseDecimal (renderRat q) = some q := by
  by_cases hneg : q < 0
  · have hdata : (renderRat q).data = '-' :: (renderNN (-q)).data := by
      simp only [renderRat, if_pos hneg, string_data_append]
      rfl
    simp only [parseDecimal, hdata, if_pos rfl]
    have hd' : (-q).den ∣ 10 ^ decExp (-q).den := by rw [Rat.neg_den]; exact hd
    rw [parseUnsigned_renderNN (-q) (by linarith) hd']
    simp
  · have h0 : 0 ≤ q := not_lt.mp hneg
    have hr : renderRat q = renderNN q := by rw [renderRat, if_neg hneg]
    obtain ⟨c, rest, hcr, hcdig⟩ := renderNN_head q
    rw [hr, parseDecimal_head_digit _ c rest hcr hcdig, ← hcr,
      parseUnsigned_renderNN q h0 hd]

/-! ### The collector loop -/

theorem processBooks_ok_shape (target : Nat) (es : List Entry) :
    ∀ acc acc2, acc.length < target → processBooks target acc es = Except.ok acc2 →
      ∃ t, acc2 = acc ++ t ∧
        (∀ p ∈ t, p.price_target = none ∧ p.timestamp = none ∧
          ∃ e ∈ es, p.name = e.name ∧ parsePrice e.priceText = some p.price_gbp) ∧
        acc2.length ≤ target ∧ (acc2.length = target ∨ t.length = es.length) := by
  induction es with
  | nil =>
    intro acc acc2 hlt h
    simp only [processBooks, Except.ok.injEq] at h
    subst h
    exact ⟨[], by simp, by simp, by omega, Or.inr rfl⟩
  | cons e rest ih =>
    intro acc acc2 hlt h
    simp only [processBooks] at h
    cases hp : parsePrice e.priceText with
    | none => simp only [hp] at h; exact absurd h (by simp)
    | some p =>
      simp only [hp] at h
      by_cases hbr : target ≤ (acc ++ [({ name := e.name, price_gbp := p } : Product)]).length
      · rw [if_pos hbr] at h
        simp only [Except.ok.injEq] at h
        subst h
        refine ⟨[{ name := e.name, price_gbp := p }], rfl, ?_, ?_, Or.inl ?_⟩
        · intro pp hpp
          have hpe : pp = { name := e.name, price_gbp := p } := by simpa using hpp
          subst hpe
          exact ⟨rfl, rfl, e, List.mem_cons_self e rest, rfl, hp⟩
        · simp only [List.length_append, List.length_cons, List.length_nil] at hbr ⊢
          omega
        · simp only [List.length_append, List.length_cons, List.length_nil] at hbr ⊢
          omega
      · rw [if_neg hbr] at h
        have hlt2 : (acc ++ [({ name := e.name, price_gbp := p } : Product)]).length
            < target := by
          simp only [List.length_append, List.length_cons, List.length_nil] at hbr ⊢
          omega
        obtain ⟨t, ht1, ht2, ht3, ht4⟩ := ih _ _ hlt2 h
        refine ⟨{ name := e.name, price_gbp := p } :: t, by simp [ht1], ?_, ht3, ?_⟩
        · intro pp hpp
          rcases List.mem_cons.mp hpp with h' | h'
          · subst h'
            exact ⟨rfl, rfl, e, List.mem_cons_self e rest, rfl, hp⟩
          · obtain ⟨ha, hb, e', he', hc, hd2⟩ := ht2 pp h'
            exact ⟨ha, hb, e', List.mem_cons_of_mem e he', hc, hd2⟩
        · rcases ht4 with h' | h'
          · exact Or.inl h'
          · right
            simp [h']

theorem processBooks_ok_exists (target : Nat) (es : List Entry) :
    ∀ acc, acc.length < target →
      (∀ e ∈ es, ∃ q, parsePrice e.priceText = some q) →
      ∃ acc2, processBooks target acc es = Except.ok acc2 := by
  induction es with
  | nil => intro acc _ _; exact ⟨acc, rfl⟩
  | cons e rest ih =>
    intro acc hlt hwf
    obtain ⟨q, hq⟩ := hwf e (List.mem_cons_self e rest)
    simp only [processBooks, hq]
    by_cases hbr : target ≤ (acc ++ [({ name := e.name, price_gbp := q } : Product)]).length
    · rw [if_pos hbr]
      exact ⟨_, rfl⟩
    · rw [if_neg hbr]
      exact ih _ (by simp only [List.length_append, List.length_cons,
          List.length_nil] at hbr ⊢; omega)
        (fun e' he' => hwf e' (List.mem_cons_of_mem e he'))

theorem processBooks_error (target : Nat) (bad : Entry) (rest : List Entry)
    (hbad : parsePrice bad.priceText = none) :
    ∀ (good : List Entry) acc,
      (∀ e ∈ good, ∃ q, parsePrice e.priceText = some q) →
      acc.length + good.length < target →
      processBooks target acc (good ++ bad :: rest) = Except.error () := by
  intro good
  induction good with
  | nil =>
    intro acc _ _
    simp only [List.nil_append, processBooks, hbad]
  | cons e g ih =>
    intro acc hwf hlen
    obtain ⟨q, hq⟩ := hwf e (List.mem_cons_self e g)
    have hlen' : acc.length + 1 + g.length < target := by
      simp only [List.length_cons] at hlen
      omega
    simp only [List.cons_append, processBooks, hq]
    rw [if_neg (by
      simp only [List.length_append, List.length_cons, List.length_nil]
      omega)]
    exact ih _ (fun e' he' => hwf e' (List.mem_cons_of_mem e he'))
      (by simp only [List.length_append, List.length_cons, List.length_nil]; omega)

theorem scrapeLoopF_fields_none (site : Site) (target : Nat) :
    ∀ fuel page acc l tr,
      (∀ p ∈ acc, p.price_target = none ∧ p.timestamp = none) →
      scrapeLoopF site target fuel page acc = (ScrapeResult.ok l, tr) →
      ∀ p ∈ l, p.price_target = none ∧ p.timestamp = none := by
  intro fuel
  induction fuel with
  | zero =>
    intro page acc l tr _ h
    exact absurd h (by simp [scrapeLoopF])
  | succ f ih =>
    intro page acc l tr hacc h
    rw [scrapeLoopF] at h
    by_cases hlt : acc.length < target
    · rw [if_pos hlt] at h
      cases hpg : site.pages page with
      | err =>
        rw [hpg] at h
        simp only [Prod.mk.injEq, ScrapeResult.ok.injEq] at h
        obtain ⟨h1, _⟩ := h
        subst h1
        exact hacc
      | ok entries =>
        rw [hpg] at h
        cases hpb : processBooks target acc entries with
        | error u => simp only [hpb] at h; simp at h
        | ok acc2 =>
          simp only [hpb] at h
          rcases hrec : scrapeLoopF site target f (page + 1) acc2 with ⟨res, trc⟩
          rw [hrec] at h
          simp only [Prod.mk.injEq] at h
          obtain ⟨h1, _⟩ := h
          subst h1
          obtain ⟨t, ht1, ht2, _, _⟩ := processBooks_ok_shape target entries acc acc2 hlt hpb
          have hacc2 : ∀ p ∈ acc2, p.price_target = none ∧ p.timestamp = none := by
            intro p hp
            rw [ht1] at hp
            rcases List.mem_append.mp hp with h' | h'
            · exact hacc p h'
            · exact ⟨(ht2 p h').1, (ht2 p h').2.1⟩
          exact ih (page + 1) acc2 l trc hacc2 hrec
    · rw [if_neg hlt] at h
      simp only [Prod.mk.injEq, ScrapeResult.ok.injEq] at h
      obtain ⟨h1, _⟩ := h
      subst h1
      exact hacc

theorem scrapeLoopF_complete (site : Site) (target : Nat) (hsite : GoodSite site) :
    ∀ fuel page acc,
      (∀ p ∈ acc, p.name ≠ "" ∧ 0 ≤ p.price_gbp) →
      acc.length ≤ target → target - acc.length < fuel →
      ∃ l tr, scrapeLoopF site target fuel page acc = (ScrapeResult.ok l, tr) ∧
        l.length = target ∧ ∀ p ∈ l, p.name ≠ "" ∧ 0 ≤ p.price_gbp := by
  intro fuel
  induction fuel with
  | zero =>
    intro page acc _ _ hf
    exact absurd hf (by omega)
  | succ f ih =>
    intro page acc hacc hle hf
    rw [scrapeLoopF]
    by_cases hlt : acc.length < target
    · rw [if_pos hlt]
      obtain ⟨es, hpg, hne, hwf⟩ := hsite page
      rw [hpg]
      obtain ⟨acc2, hpb⟩ := processBooks_ok_exists target es acc hlt
        (fun e he => ((hwf e he).2).imp (fun q hq => hq.1))
      obtain ⟨t, ht1, ht2, ht3, ht4⟩ := processBooks_ok_shape target es acc acc2 hlt hpb
      have hacc2 : ∀ p ∈ acc2, p.name ≠ "" ∧ 0 ≤ p.price_gbp := by
        intro p hp
        rw [ht1] at hp
        rcases List.mem_append.mp hp with h' | h'
        · exact hacc p h'
        · obtain ⟨_, _, e, he, hname, hq⟩ := ht2 p h'
          obtain ⟨hn, q, hq', hq0⟩ := hwf e he
          rw [hq'] at hq
          injection hq with hq
          exact ⟨by rw [hname]; exact hn, by rw [← hq]; exact hq0⟩
      have hprog : target - acc2.length < f := by
        rcases ht4 with h' | h'
        · omega
        · have h1 : 1 ≤ t.length := by
            cases es with
            | nil => exact absurd rfl hne
            | cons a b => rw [h']; simp
          have hlen2 : acc2.length = acc.length + t.length := by
            rw [ht1]; simp
          omega
      obtain ⟨l, tr, hrec, hlen, hgood⟩ := ih (page + 1) acc2 hacc2 ht3 hprog
      refine ⟨l, Ev.fetch page :: tr, ?_, hlen, hgood⟩
      simp only [hpb, hrec]
    · rw [if_neg hlt]
      exact ⟨acc, [], rfl, by omega, hacc⟩

theorem scrapeLoopF_empty_pages (site : Site) (target : Nat)
    (hsite : ∀ p, site.pages p = FetchResult.ok []) :
    ∀ fuel page acc, acc.length < target →
      scrapeLoopF site target fuel page acc =
        (ScrapeResult.diverge, (List.range' page fuel).map Ev.fetch) := by
  intro fuel
  induction fuel with
  | zero => intro page acc _; rfl
  | succ f ih =>
    intro page acc hlt
    rw [scrapeLoopF, if_pos hlt, hsite page]
    simp only [processBooks]
    rw [ih (page + 1) acc hlt]
    simp [List.range'_succ]

/-! ### The converter -/

theorem convertLoop_map_timestamp (now : Nat → String) (rate : Rat) :
    ∀ ps i, (convertLoop now rate i ps).map Product.timestamp =
      (List.range' i ps.length).map (fun j => some (now j)) := by
  intro ps
  induction ps with
  | nil => intro i; rfl
  | cons p ps ih =>
    intro i
    simp only [convertLoop, List.map_cons, List.length_cons, List.range'_succ,
      ih (i + 1)]

theorem convertLoop_forall₂ (now : Nat → String) (rate : Rat) :
    ∀ ps i, List.Forall₂ (fun p q => q.name = p.name ∧ q.price_gbp = p.price_gbp ∧
        q.price_target = some (round2 (p.price_gbp * rate))) ps (convertLoop now rate i ps) := by
  intro ps
  induction ps with
  | nil => intro i; exact List.Forall₂.nil
  | cons p ps ih => intro i; exact List.Forall₂.cons ⟨rfl, rfl, rfl⟩ (ih (i + 1))

theorem convertLoop_fields_some (now : Nat → String) (rate : Rat) :
    ∀ ps i p, p ∈ convertLoop now rate i ps →
      (∃ t, p.price_target = some t) ∧ ∃ s, p.timestamp = some s := by
  intro ps
  induction ps with
  | nil => intro i p hp; simp [convertLoop] at hp
  | cons x xs ih =>
    intro i p hp
    rcases List.mem_cons.mp hp with h | h
    · subst h; exact ⟨⟨_, rfl⟩, _, rfl⟩
    · exact ih (i + 1) p h

theorem convertLoop_length (now : Nat → String) (rate : Rat) :
    ∀ ps i, (convertLoop now rate i ps).length = ps.length := by
  intro ps
  induction ps with
  | nil => intro i; rfl
  | cons x xs ih => intro i; simp [convertLoop, ih (i + 1)]

/-! ### The sink -/

theorem all_contains_self (l : List String) : (l.all fun k => l.contains k) = true :=
  List.all_eq_true.mpr (fun k hk => by simpa using hk)

theorem price_field_ne_name (y : String) : "price_" ++ y ≠ "name" := by
  intro h
  have h2 := congrArg String.data h
  rw [string_data_append] at h2
  rw [show ("price_" : String).data = ['p', 'r', 'i', 'c', 'e', '_'] from rfl,
    show ("name" : String).data = ['n', 'a', 'm', 'e'] from rfl] at h2
  simp only [List.cons_append] at h2
  injection h2 with h3 _
  exact absurd h3 (by decide)

theorem price_field_ne_timestamp (y : String) : "price_" ++ y ≠ "timestamp" := by
  intro h
  have h2 := congrArg String.data h
  rw [string_data_append] at h2
  rw [show ("price_" : String).data = ['p', 'r', 'i', 'c', 'e', '_'] from rfl,
    show ("timestamp" : String).data = ['t', 'i', 'm', 'e', 's', 't', 'a', 'm', 'p']
      from rfl] at h2
  simp only [List.cons_append] at h2
  injection h2 with h3 _
  exact absurd h3 (by decide)

theorem fieldNames_converted (cur : String) (p : Product) (t : Rat) (s : String)
    (ht : p.price_target = some t) (hs : p.timestamp = some s) :
    fieldNames cur p = ["name", "price_gbp", "price_" ++ strLower cur, "timestamp"] := by
  simp only [fieldNames, ht, hs]
  rfl

theorem cellOf_name (cur : String) (p : Product) : cellOf cur p "name" = some p.name := by
  rw [cellOf, if_pos rfl]

theorem cellOf_gbp (cur : String) (p : Product) :
    cellOf cur p "price_gbp" = some (renderRat p.price_gbp) := by
  rw [cellOf, if_neg (by decide), if_pos rfl]

theorem cellOf_target (cur : String) (p : Product)
    (hcur : "price_" ++ strLower cur ≠ "price_gbp") :
    cellOf cur p ("price_" ++ strLower cur) = p.price_target.map renderRat := by
  rw [cellOf, if_neg (price_field_ne_name _), if_neg hcur, if_pos rfl]

theorem cellOf_timestamp (cur : String) (p : Product) :
    cellOf cur p "timestamp" = p.timestamp := by
  rw [cellOf, if_neg (by decide), if_neg (by decide),
    if_neg (fun h => price_field_ne_timestamp (strLower cur) h.symm), if_pos rfl]

theorem rowOf_converted (cur : String) (p : Product) (t : Rat) (s : String)
    (ht : p.price_target = some t) (hs : p.timestamp = some s)
    (hcur : "price_" ++ strLower cur ≠ "price_gbp") :
    rowOf cur ["name", "price_gbp", "price_" ++ strLower cur, "timestamp"] p =
      some [p.name, renderRat p.price_gbp, renderRat t, s] := by
  rw [rowOf, fieldNames_converted cur p t s ht hs, if_pos (all_contains_self _)]
  simp [cellOf_name, cellOf_gbp, cellOf_target cur p hcur, cellOf_timestamp, ht, hs]

theorem rowOf_some (cur : String) (fields : List String) (p : Product) (t : Rat)
    (s : String) (ht : p.price_target = some t) (hs : p.timestamp = some s)
    (hf : fields = ["name", "price_gbp", "price_" ++ strLower cur, "timestamp"]) :
    ∃ r, rowOf cur fields p = some r := by
  subst hf
  rw [rowOf, fieldNames_converted cur p t s ht hs, if_pos (all_contains_self _)]
  exact ⟨_, rfl⟩

theorem rowsOf_forall₂ (cur : String) (fields : List String) :
    ∀ ps, (∀ p ∈ ps, ∃ r, rowOf cur fields p = some r) →
      ∃ rows, rowsOf cur fields ps = some rows ∧
        List.Forall₂ (fun p r => rowOf cur fields p = some r) ps rows := by
  intro ps
  induction ps with
  | nil => intro _; exact ⟨[], rfl, List.Forall₂.nil⟩
  | cons p ps ih =>
    intro h
    obtain ⟨r, hr⟩ := h p (List.mem_cons_self p ps)
    obtain ⟨rows, hrows, hfa⟩ := ih (fun q hq => h q (List.mem_cons_of_mem p hq))
    refine ⟨r :: rows, ?_, List.Forall₂.cons hr hfa⟩
    simp only [rowsOf, hr, hrows]

theorem save_to_csv_converted (cur : String) (p0 : Product) (ps : List Product)
    (hconv : ∀ p ∈ p0 :: ps,
      (∃ t, p.price_target = some t) ∧ ∃ s, p.timestamp = some s) :
    ∃ rows, save_to_csv cur (p0 :: ps) =
        some (["name", "price_gbp", "price_" ++ strLower cur, "timestamp"] :: rows) ∧
      List.Forall₂ (fun p r =>
          rowOf cur ["name", "price_gbp", "price_" ++ strLower cur, "timestamp"] p
            = some r)
        (p0 :: ps) rows := by
  obtain ⟨⟨t0, ht0⟩, s0, hs0⟩ := hconv p0 (List.mem_cons_self p0 ps)
  have hf : fieldNames cur p0 =
      ["name", "price_gbp", "price_" ++ strLower cur, "timestamp"] :=
    fieldNames_converted cur p0 t0 s0 ht0 hs0
  have hall : ∀ p ∈ p0 :: ps, ∃ r, rowOf cur (fieldNames cur p0) p = some r := by
    intro p hp
    obtain ⟨⟨t, ht⟩, s, hs⟩ := hconv p hp
    exact rowOf_some cur _ p t s ht hs hf
  obtain ⟨rows, hrows, hfa⟩ := rowsOf_forall₂ cur (fieldNames cur p0) _ hall
  refine ⟨rows, ?_, by rw [← hf]; exact hfa⟩
  rw [hf] at hrows
  simp only [save_to_csv, hf, hrows, Option.map_some']

theorem convert_prices_map_timestamp (now : Nat → String) (ps : List Product)
    (rate : Rat) (cur : String) :
    (convert_prices now ps rate cur).map Product.timestamp =
      (List.range' 0 ps.length).map (fun j => some (now j)) :=
  convertLoop_map_timestamp now rate ps 0

/-! ### The claims -/

/-- C1 counterexample: `convert_prices` does not assign one shared batch
timestamp.  With a clock that advances between the two per-record
`datetime.now()` calls, the two records of a single run carry different
`timestamp` values, refuting the claim at this concrete input. -/
theorem C1_counterexample_per_record_clock :
    (convert_prices (fun i => natToString i)
        [{ name := "A", price_gbp := 1 }, { name := "B", price_gbp := 2 }]
        1 "kes").map Product.timestamp = [some "0", some "1"] ∧
    ¬(∀ p ∈ convert_prices (fun i => natToString i)
        [{ name := "A", price_gbp := 1 }, { name := "B", price_gbp := 2 }] 1 "kes",
      ∀ q ∈ convert_prices (fun i => natToString i)
        [{ name := "A", price_gbp := 1 }, { name := "B", price_gbp := 2 }] 1 "kes",
      p.timestamp = q.timestamp) := by
  constructor
  · decide
  · decide

/-- C1 (amended): `convert_prices` computes the capture timestamp per record —
the i-th record gets the i-th `datetime.now()` reading of the loop, not one
batch-level reading — so all records of one run carry an identical
`timestamp` only when every per-record clock reading is the same (e.g. the
loop completes within one formatted second), in which case each record
carries that shared value. -/
theorem C1_convert_prices_timestamp_per_record (now : Nat → String) (ps : List Product)
    (rate : Rat) (cur : String) :
    ((convert_prices now ps rate cur).map Product.timestamp =
      (List.range' 0 ps.length).map (fun j => some (now j))) ∧
    ((∀ j, j < ps.length → now j = now 0) →
      ∀ p ∈ convert_prices now ps rate cur, p.timestamp = some (now 0)) := by
  refine ⟨convert_prices_map_timestamp now ps rate cur, ?_⟩
  intro hc p hp
  have h1 : p.timestamp ∈ (convert_prices now ps rate cur).map Product.timestamp :=
    List.mem_map_of_mem _ hp
  rw [convert_prices_map_timestamp now ps rate cur] at h1
  obtain ⟨j, hj, hjp⟩ := List.mem_map.mp h1
  have hjlt : j < ps.length := by
    have := List.mem_range'_1.mp hj
    omega
  rw [← hjp, hc j hjlt]

theorem C1_witness_constant_clock :
    ({ name := "A", price_gbp := 1, price_target := some (round2 (1 * 1)),
        timestamp := some "2025-01-01 00:00:00" } : Product).timestamp =
      some "2025-01-01 00:00:00" :=
  (C1_convert_prices_timestamp_per_record (fun _ => "2025-01-01 00:00:00")
      [{ name := "A", price_gbp := 1 }] 1 "kes").2
    (fun _ _ => rfl) _ (List.mem_cons_self _ _)

/-- C2: for a batch of records with non-negative source prices and a positive
rate, `convert_prices` returns exactly as many records as it was given, each
with the target price `round2 (price_gbp * rate)` (round to 2 decimal places),
and on the empty batch it returns the empty batch. -/
theorem C2_convert_prices_length_and_prices (now : Nat → String) (ps : List Product)
    (rate : Rat) (cur : String) (hpos : ∀ p ∈ ps, 0 ≤ p.price_gbp) (hrate : 0 < rate) :
    (convert_prices now ps rate cur).length = ps.length ∧
    List.Forall₂ (fun p q => q.name = p.name ∧ q.price_gbp = p.price_gbp ∧
        q.price_target = some (round2 (p.price_gbp * rate))) ps
      (convert_prices now ps rate cur) ∧
    convert_prices now [] rate cur = [] :=
  ⟨convertLoop_length now rate ps 0, convertLoop_forall₂ now rate ps 0, rfl⟩

theorem C2_witness :
    (convert_prices (fun _ => "T") [{ name := "Book A", price_gbp := 10 }]
        150 "kes").length = [({ name := "Book A", price_gbp := 10 } : Product)].length ∧
    List.Forall₂ (fun (p q : Product) => q.name = p.name ∧ q.price_gbp = p.price_gbp ∧
        q.price_target = some (round2 (p.price_gbp * 150)))
      [{ name := "Book A", price_gbp := 10 }]
      (convert_prices (fun _ => "T") [{ name := "Book A", price_gbp := 10 }] 150 "kes") ∧
    convert_prices (fun _ => "T") [] 150 "kes" = [] :=
  C2_convert_prices_length_and_prices (fun _ => "T")
    [{ name := "Book A", price_gbp := 10 }] 150 "kes" (by decide) (by decide)

/-- C3: on a site where every page fetch succeeds with at least one
well-formed entry, `scrape_books target_count` (for `target_count ≥ 1`, and
any fuel beyond `target_count + 1` loop iterations) returns exactly
`target_count` records — trimming exactly at the target, never more — each
with a non-empty name and a non-negative source price. -/
theorem C3_scrape_books_exact_count (site : Site) (target : Nat) (h1 : 1 ≤ target)
    (hsite : GoodSite site) :
    ∀ fuel, target + 1 ≤ fuel →
      ∃ l tr, scrape_books site target fuel = (ScrapeResult.ok l, tr) ∧
        l.length = target ∧ ∀ p ∈ l, p.name ≠ "" ∧ 0 ≤ p.price_gbp := by
  intro fuel hfuel
  exact scrapeLoopF_complete site target hsite fuel 1 [] (by simp)
    (by simp) (by simp only [List.length_nil]; omega)

theorem C3_witness :
    ∃ l tr, scrape_books
        ⟨fun _ => FetchResult.ok [{ name := "A", priceText := "£2" }]⟩ 1 2 =
        (ScrapeResult.ok l, tr) ∧ l.length = 1 ∧
      ∀ p ∈ l, p.name ≠ "" ∧ 0 ≤ p.price_gbp :=
  C3_scrape_books_exact_count _ 1 le_rfl
    (fun _ => ⟨[{ name := "A", priceText := "£2" }], rfl, by decide,
      fun e he => by
        have he' : e = { name := "A", priceText := "£2" } := by simpa using he
        subst he'
        exact ⟨by decide, ((2 : Nat) : Rat), rfl, by decide⟩⟩)
    2 le_rfl

/-- C4: when the fetch of a page fails while the accumulator is still short of
the target, `scrape_books` logs the failure, sleeps once, and returns the
records accumulated so far without retrying the page or fetching any later
page (the whole event trace of the iteration is fetch, log, sleep); in
particular a failure on the very first fetch yields the empty sequence. -/
theorem C4_fetch_failure_aborts (site : Site) :
    (∀ target fuel page acc, acc.length < target →
      site.pages page = FetchResult.err →
      scrapeLoopF site target (fuel + 1) page acc =
        (ScrapeResult.ok acc, [Ev.fetch page, Ev.logError page, Ev.sleep])) ∧
    (∀ target fuel, 1 ≤ target → site.pages 1 = FetchResult.err →
      scrape_books site target (fuel + 1) =
        (ScrapeResult.ok [], [Ev.fetch 1, Ev.logError 1, Ev.sleep])) := by
  have h1 : ∀ target fuel page acc, acc.length < target →
      site.pages page = FetchResult.err →
      scrapeLoopF site target (fuel + 1) page acc =
        (ScrapeResult.ok acc, [Ev.fetch page, Ev.logError page, Ev.sleep]) := by
    intro target fuel page acc hlt herr
    rw [scrapeLoopF, if_pos hlt, herr]
  exact ⟨h1, fun target fuel ht herr =>
    h1 target fuel 1 [] (by simp only [List.length_nil]; omega) herr⟩

theorem C4_witness :
    scrapeLoopF ⟨fun _ => FetchResult.err⟩ 5 1 3 [] =
        (ScrapeResult.ok [], [Ev.fetch 3, Ev.logError 3, Ev.sleep]) ∧
      scrape_books ⟨fun _ => FetchResult.err⟩ 2 4 =
        (ScrapeResult.ok [], [Ev.fetch 1, Ev.logError 1, Ev.sleep]) :=
  ⟨(C4_fetch_failure_aborts _).1 5 0 3 [] (by decide) rfl,
    (C4_fetch_failure_aborts _).2 2 3 (by decide) rfl⟩

/-- C5: `get_exchange_rate` looks the upper-cased currency code up in the
fetched table (so `"usd"` finds `"USD" ↦ 1.27`); on a failed or malformed
fetch, or when the code is absent from the table, it returns the fallback
180.0 with the warning flag set instead of raising. -/
theorem C5_get_exchange_rate_spec :
    (get_exchange_rate (Except.ok [("USD", (127 : Rat) / 100)]) "usd" =
      ((127 : Rat) / 100, false)) ∧
    (∀ t : String, get_exchange_rate (Except.error ()) t = (180, true)) ∧
    (∀ (table : List (String × Rat)) (t : String),
      rateLookup (strUpper t) table = none →
      get_exchange_rate (Except.ok table) t = (180, true)) ∧
    (∀ (table : List (String × Rat)) (t : String) (r : Rat),
      rateLookup (strUpper t) table = some r →
      get_exchange_rate (Except.ok table) t = (r, false)) := by
  refine ⟨rfl, fun t => rfl, ?_, ?_⟩
  · intro table t h
    simp only [get_exchange_rate, h]
  · intro table t r h
    simp only [get_exchange_rate, h]

theorem C5_witness :
    get_exchange_rate (Except.ok [("USD", (127 : Rat) / 100)]) "eur" = (180, true) ∧
      get_exchange_rate (Except.ok [("USD", (127 : Rat) / 100)]) "Usd" =
        ((127 : Rat) / 100, false) :=
  ⟨C5_get_exchange_rate_spec.2.2.1 _ "eur" rfl,
    C5_get_exchange_rate_spec.2.2.2 _ "Usd" _ rfl⟩

/-- C6: an entry whose price text does not parse (after removing the pound
sign) makes the iteration end in the uncaught `ValueError` — result `exn`,
aborting the whole run after the single fetch of that page, with no later
entry or page processed and nothing returned; the `except` clause for fetch
errors does not catch it. -/
theorem C6_parse_failure_aborts (site : Site) (target fuel page : Nat)
    (acc : List Product) (good : List Entry) (bad : Entry) (rest : List Entry)
    (hpg : site.pages page = FetchResult.ok (good ++ bad :: rest))
    (hgood : ∀ e ∈ good, ∃ q, parsePrice e.priceText = some q)
    (hbad : parsePrice bad.priceText = none)
    (hlen : acc.length + good.length < target) :
    scrapeLoopF site target (fuel + 1) page acc = (ScrapeResult.exn, [Ev.fetch page]) := by
  rw [scrapeLoopF, if_pos (by omega), hpg]
  simp only [processBooks_error target bad rest hbad good acc hgood hlen]

theorem C6_witness :
    scrapeLoopF ⟨fun _ => FetchResult.ok [{ name := "A", priceText := "£x" }]⟩ 1 1 1 [] =
      (ScrapeResult.exn, [Ev.fetch 1]) :=
  C6_parse_failure_aborts _ 1 0 1 [] [] { name := "A", priceText := "£x" } [] rfl
    (by simp) rfl (by decide)

/-- C7: the derived fields are set exactly by the converter: every record a
`scrape_books` run returns has neither `price_target` nor `timestamp` set,
and every record `convert_prices` returns has both set. -/
theorem C7_derived_fields_iff_converted :
    (∀ (site : Site) (target fuel : Nat) (l : List Product) (tr : List Ev),
      scrape_books site target fuel = (ScrapeResult.ok l, tr) →
      ∀ p ∈ l, p.price_target = none ∧ p.timestamp = none) ∧
    (∀ (now : Nat → String) (ps : List Product) (rate : Rat) (cur : String),
      ∀ p ∈ convert_prices now ps rate cur,
        (∃ t, p.price_target = some t) ∧ ∃ s, p.timestamp = some s) := by
  constructor
  · intro site target fuel l tr h p hp
    exact scrapeLoopF_fields_none site target fuel 1 [] l tr (by simp) h p hp
  · intro now ps rate cur p hp
    exact convertLoop_fields_some now rate ps 0 p hp

theorem C7_witness :
    (({ name := "A", price_gbp := ((2 : Nat) : Rat) } : Product).price_target = none ∧
      ({ name := "A", price_gbp := ((2 : Nat) : Rat) } : Product).timestamp = none) ∧
    ((∃ t, (⟨"A", 1, some (round2 (1 * 1)), some "T"⟩ : Product).price_target = some t) ∧
      ∃ s, (⟨"A", 1, some (round2 (1 * 1)), some "T"⟩ : Product).timestamp = some s) :=
  ⟨C7_derived_fields_iff_converted.1
      ⟨fun _ => FetchResult.ok [{ name := "A", priceText := "£2" }]⟩ 1 2
      [{ name := "A", price_gbp := ((2 : Nat) : Rat) }] [Ev.fetch 1] rfl
      _ (List.mem_cons_self _ _),
    C7_derived_fields_iff_converted.2 (fun _ => "T")
      [{ name := "A", price_gbp := 1 }] 1 "kes" _ (List.mem_cons_self _ _)⟩

/-- C8: on a site whose every page fetch succeeds but yields zero entries,
`scrape_books` never terminates: for every fuel bound it is still running
(`diverge`), having fetched pages 1, 2, …, fuel — the page cursor advances
forever and only count-reached or a fetch failure could stop the loop. -/
theorem C8_empty_pages_never_terminate (site : Site) (target : Nat) (h1 : 1 ≤ target)
    (hsite : ∀ p, site.pages p = FetchResult.ok []) :
    ∀ fuel, scrape_books site target fuel =
      (ScrapeResult.diverge, (List.range' 1 fuel).map Ev.fetch) := by
  intro fuel
  exact scrapeLoopF_empty_pages site target hsite fuel 1 []
    (by simp only [List.length_nil]; omega)

theorem C8_witness :
    scrape_books ⟨fun _ => FetchResult.ok []⟩ 1 3 =
      (ScrapeResult.diverge, [Ev.fetch 1, Ev.fetch 2, Ev.fetch 3]) :=
  C8_empty_pages_never_terminate _ 1 le_rfl (fun _ => rfl) 3

/-- C9: writing a non-empty converted batch with `save_to_csv` produces one
header row taken from the first record's field set followed by one row per
record, and reading each row back cell by cell recovers the record: the name
and timestamp cells verbatim, and parsing the two rendered price cells with
`parseDecimal` returns exactly the original rational values (the
finite-decimal hypotheses say the prices are representable in decimal
notation, as every binary float the program handles is). -/
theorem C9_csv_round_trip (cur : String) (p0 : Product) (ps : List Product)
    (hcur : "price_" ++ strLower cur ≠ "price_gbp")
    (hconv : ∀ p ∈ p0 :: ps, ∃ t s, p.price_target = some t ∧ p.timestamp = some s ∧
      p.price_gbp.den ∣ 10 ^ decExp p.price_gbp.den ∧ t.den ∣ 10 ^ decExp t.den) :
    ∃ rows, save_to_csv cur (p0 :: ps) =
        some (["name", "price_gbp", "price_" ++ strLower cur, "timestamp"] :: rows) ∧
      rows.length = (p0 :: ps).length ∧
      List.Forall₂ (fun (p : Product) (row : List String) =>
          ∃ t s, p.price_target = some t ∧ p.timestamp = some s ∧
            row = [p.name, renderRat p.price_gbp, renderRat t, s] ∧
            parseDecimal (renderRat p.price_gbp) = some p.price_gbp ∧
            parseDecimal (renderRat t) = some t)
        (p0 :: ps) rows := by
  have hconv' : ∀ p ∈ p0 :: ps,
      (∃ t, p.price_target = some t) ∧ ∃ s, p.timestamp = some s := by
    intro p hp
    obtain ⟨t, s, ht, hs, _, _⟩ := hconv p hp
    exact ⟨⟨t, ht⟩, s, hs⟩
  obtain ⟨rows, hsave, hfa⟩ := save_to_csv_converted cur p0 ps hconv'
  have hstrong : ∀ (l : List Product) (rs : List (List String)),
      List.Forall₂ (fun p r =>
        rowOf cur ["name", "price_gbp", "price_" ++ strLower cur, "timestamp"] p
          = some r) l rs →
      (∀ p ∈ l, ∃ t s, p.price_target = some t ∧ p.timestamp = some s ∧
        p.price_gbp.den ∣ 10 ^ decExp p.price_gbp.den ∧ t.den ∣ 10 ^ decExp t.den) →
      List.Forall₂ (fun (p : Product) (row : List String) =>
        ∃ t s, p.price_target = some t ∧ p.timestamp = some s ∧
          row = [p.name, renderRat p.price_gbp, renderRat t, s] ∧
          parseDecimal (renderRat p.price_gbp) = some p.price_gbp ∧
          parseDecimal (renderRat t) = some t) l rs := by
    intro l rs hrel
    induction hrel with
    | nil => intro _; exact List.Forall₂.nil
    | @cons p r l' rs' hpr hrest ih =>
      intro hc
      refine List.Forall₂.cons ?_ (ih (fun q hq => hc q (List.mem_cons_of_mem p hq)))
      obtain ⟨t, s, ht, hs, hd1, hd2⟩ := hc p (List.mem_cons_self p l')
      rw [rowOf_converted cur p t s ht hs hcur] at hpr
      injection hpr with hpr
      exact ⟨t, s, ht, hs, hpr.symm, parseDecimal_renderRat _ hd1,
        parseDecimal_renderRat _ hd2⟩
  have hfa2 := hstrong _ _ hfa hconv
  exact ⟨rows, hsave, hfa2.length_eq.symm, hfa2⟩

theorem C9_witness :
    ∃ rows, save_to_csv "kes"
        [⟨"Book A", ((10 : Nat) : Rat), some ((1500 : Nat) : Rat), some "T"⟩] =
        some (["name", "price_gbp", "price_" ++ strLower "kes", "timestamp"] :: rows) ∧
      rows.length =
        [(⟨"Book A", ((10 : Nat) : Rat), some ((1500 : Nat) : Rat), some "T"⟩ :
          Product)].length ∧
      List.Forall₂ (fun (p : Product) (row : List String) =>
          ∃ t s, p.price_target = some t ∧ p.timestamp = some s ∧
            row = [p.name, renderRat p.price_gbp, renderRat t, s] ∧
            parseDecimal (renderRat p.price_gbp) = some p.price_gbp ∧
            parseDecimal (renderRat t) = some t)
        [⟨"Book A", ((10 : Nat) : Rat), some ((1500 : Nat) : Rat), some "T"⟩] rows :=
  C9_csv_round_trip "kes" ⟨"Book A", ((10 : Nat) : Rat), some ((1500 : Nat) : Rat),
      some "T"⟩ []
    (by decide)
    (fun p hp => by
      have hp' : p = ⟨"Book A", ((10 : Nat) : Rat), some ((1500 : Nat) : Rat),
          some "T"⟩ := by simpa using hp
      subst hp'
      exact ⟨((1500 : Nat) : Rat), "T", rfl, rfl, by decide, by decide⟩)

/-- C10: `save_to_csv` on an empty batch raises (here: returns `none`, the
`IndexError` of `products[0]`), but `main` never reaches it with an empty
batch: whenever collection yields no products the run ends early at the
"No products found." branch, so a full run can never end in `saveFailed`. -/
theorem C10_empty_save_unreachable :
    (∀ cur : String, save_to_csv cur [] = none) ∧
    (∀ (site : Site) (api : Except Unit (List (String × Rat))) (now : Nat → String)
      (fuel num : Nat) (cur : String),
      mainModel site api now fuel num cur ≠ MainOutcome.saveFailed) := by
  constructor
  · intro cur
    rfl
  · intro site api now fuel num cur h
    rcases hs : scrape_books site num fuel with ⟨res, tr⟩
    cases res with
    | exn => simp only [mainModel, hs] at h; exact absurd h (by simp)
    | diverge => simp only [mainModel, hs] at h; exact absurd h (by simp)
    | ok products =>
      simp only [mainModel, hs] at h
      by_cases hemp : products.isEmpty = true
      · rw [if_pos hemp] at h
        simp at h
      · rw [if_neg hemp] at h
        obtain ⟨p0, ps', hps⟩ : ∃ p0 ps', products = p0 :: ps' := by
          cases products with
          | nil => simp at hemp
          | cons a b => exact ⟨a, b, rfl⟩
        subst hps
        have hconv : ∀ p ∈ convert_prices now (p0 :: ps')
            (get_exchange_rate api cur).1 cur,
            (∃ t, p.price_target = some t) ∧ ∃ s, p.timestamp = some s :=
          fun p hp => convertLoop_fields_some now (get_exchange_rate api cur).1
            (p0 :: ps') 0 p hp
        have hcc : convert_prices now (p0 :: ps') (get_exchange_rate api cur).1 cur =
            { p0 with
              price_target := some (round2 (p0.price_gbp * (get_exchange_rate api cur).1)),
              timestamp := some (now 0) } ::
              convertLoop now (get_exchange_rate api cur).1 1 ps' := rfl
        rw [hcc] at hconv
        obtain ⟨rows, hsave, _⟩ := save_to_csv_converted cur _ _ hconv
        rw [hcc, hsave] at h
        simp at h

theorem C10_witness :
    save_to_csv "kes" [] = none ∧
      mainModel ⟨fun _ => FetchResult.err⟩ (Except.error ()) (fun _ => "T") 1 1 "kes" ≠
        MainOutcome.saveFailed :=
  ⟨C10_empty_save_unreachable.1 "kes",
    C10_empty_save_unreachable.2 ⟨fun _ => FetchResult.err⟩ (Except.error ())
      (fun _ => "T") 1 1 "kes"⟩
